import Mathlib

/-!
Verification of the regex-fractals renderer (src/main.rs).

Strings are modelled as `List Char`, `u8` channel values as `ℕ` (with the
`as u8` cast made explicit), `u32` as `ℕ` bounded by `2^32`, and the finite
`f64` values arising in the program as exact rationals `ℚ`, with `none`
standing for a non-finite result (NaN / infinity, which arise only from a
division by zero here).  External collaborators (the regex engine, the hex
decoder's digit table, `str::parse::<u32>`) are modelled from their
documented contracts; everything else is translated from the source.
-/

/-- The body of the `while half > 1` loop of `pixel_string` (src/main.rs
lines 120-136), written with an explicit fuel argument so that the
function is structurally recursive.  `half` is halved on every iteration,
so any fuel at least `half` is enough; `quadLoopGo_congr` below shows the
result does not depend on the fuel once it is sufficient. -/
def quadLoopGo : ℕ → ℕ → ℕ → ℕ → List Char
  | 0, _, _, _ => []
  | fuel + 1, cx, cy, half =>
    if half > 1 then
      if cx ≥ half ∧ cy < half then '1' :: quadLoopGo fuel (cx - half) cy (half / 2)
      else if cx < half ∧ cy < half then '2' :: quadLoopGo fuel cx cy (half / 2)
      else if cx < half ∧ cy ≥ half then '3' :: quadLoopGo fuel cx (cy - half) (half / 2)
      else '4' :: quadLoopGo fuel (cx - half) (cy - half) (half / 2)
    else []

/-- The loop of `pixel_string`, run from a given `half` value (with fuel
`half`, which is always sufficient). -/
def quadLoop (cx cy half : ℕ) : List Char := quadLoopGo half cx cy half

/-- Function `pixel_string` from src/main.rs lines 110-139: the quadrant address of
pixel `(x, y)` in a `size × size` canvas.  The `reserve`/capacity logic of
the source is irrelevant to the value and is omitted. -/
def pixel_string (x y size : ℕ) : List Char := quadLoop x y (size / 2)

/-- The new working x-coordinate after one iteration of the halving loop. -/
def quadX (cx half : ℕ) : ℕ := if cx ≥ half then cx - half else cx

/-- The new working y-coordinate after one iteration of the halving loop. -/
def quadY (cy half : ℕ) : ℕ := if cy ≥ half then cy - half else cy

/-- The symbol pushed by one iteration of the halving loop. -/
def quadChar (cx cy half : ℕ) : Char :=
  if cx ≥ half then (if cy ≥ half then '4' else '1') else (if cy ≥ half then '3' else '2')

/-- An RGB triple, the model of `[u8; 3]` (each channel a natural below 256
whenever it comes from the program). -/
def Color : Type := ℕ × ℕ × ℕ

instance : DecidableEq Color := by
  unfold Color
  infer_instance

/-- Division of the two lengths as performed on `f64` in `create_image`
(src/main.rs line 85).  `none` models a non-finite result: on `f64`,
`0.0 / 0.0` is NaN (and `c / 0.0` with `c > 0` is infinite); a nonzero
denominator gives a finite value, modelled by the exact rational. -/
def fdiv (a b : ℕ) : Option ℚ := if b = 0 then none else some ((a : ℚ) / (b : ℚ))

/-- Truncation of a finite `f64` toward zero into a `u8`, as Rust's
`as u8` cast does (src/main.rs line 106): negative values saturate to 0,
values above 255 saturate to 255, and the fractional part is dropped. -/
def ratTruncToNat (q : ℚ) : ℕ := q.num.toNat / q.den

/-- Function `u8_lerp` from src/main.rs lines 102-107: `(fx + t * (fy - fx)) as u8`.
A NaN `t` (modelled by `none`) makes the whole expression NaN, and
`NaN as u8` is 0 in Rust. -/
def u8_lerp (t : Option ℚ) (x y : ℕ) : ℕ :=
  match t with
  | none => 0
  | some q => min (ratTruncToNat ((x : ℚ) + q * ((y : ℚ) - (x : ℚ)))) 255

/-- Function `color_lerp` from src/main.rs lines 96-100. -/
def color_lerp (t : Option ℚ) (fst_color snd_color : Color) : Color :=
  (u8_lerp t fst_color.1 snd_color.1,
   u8_lerp t fst_color.2.1 snd_color.2.1,
   u8_lerp t fst_color.2.2 snd_color.2.2)

/-- Modelled from the spec (§6, pattern engine collaborator): a compiled
pattern exposes a match test and, when the pattern matches, the length of
the substring matched by the first capture group — `none` when the pattern
has no capture group or the group did not participate in the match. -/
structure RegexModel where
  isMatch : List Char → Bool
  captureAt1 : List Char → Option ℕ

/-- The proportion `t` computed in `create_image` (src/main.rs lines
84-87): the length of the first capture group divided by the length of the
address on `f64`, or `0` when there is no participating capture group. -/
def t_value (rm : RegexModel) (pixel_id : List Char) : Option ℚ :=
  match rm.captureAt1 pixel_id with
  | some c => fdiv c pixel_id.length
  | none => some 0

/-- Struct `ImageOptions` from src/main.rs lines 28-34 (the output path is
handled outside the rendering core and is not needed here). -/
structure ImageOptions where
  match_color : Color
  off_color : Color
  on_color : Color
  regex : List Char
  size : ℕ

/-- The per-pixel closure of `create_image` (src/main.rs lines 79-93),
with the compiled pattern abstracted as a `RegexModel`. -/
def create_image_pixel (rm : RegexModel) (options : ImageOptions) (x y : ℕ) : Color :=
  if rm.isMatch (pixel_string x y options.size) then
    color_lerp (t_value rm (pixel_string x y options.size)) options.on_color options.match_color
  else
    options.off_color

/-- The pixel grid, row `y` after row `y`: the model of the `RgbImage`
produced by `create_image`. -/
def Image : Type := List (List Color)

instance : DecidableEq Image := by
  unfold Image
  infer_instance

/-- Function `create_image` from src/main.rs lines 76-94.  `Regex::new(..).unwrap()`
panics on an uncompilable pattern; `none` models that panic.  The external
compilation step is a parameter. -/
def create_image (compile : List Char → Option RegexModel) (options : ImageOptions) :
    Option Image :=
  match compile options.regex with
  | none => none
  | some rm =>
      some ((List.range options.size).map fun y =>
        (List.range options.size).map fun x => create_image_pixel rm options x y)

/-- Modelled from the spec (§6, hex-color decoder collaborator): the value
of one hexadecimal digit. -/
def hexDigitVal (c : Char) : Option ℕ :=
  if '0' ≤ c ∧ c ≤ '9' then some (c.toNat - 48)
  else if 'a' ≤ c ∧ c ≤ 'f' then some (c.toNat - 97 + 10)
  else if 'A' ≤ c ∧ c ≤ 'F' then some (c.toNat - 65 + 10)
  else none

/-- Modelled from the spec (§6, hex-color decoder collaborator): decode a
hex string two digits per byte; any non-hex character fails. -/
def from_hex : List Char → Option (List ℕ)
  | [] => some []
  | [_] => none
  | c1 :: c2 :: rest =>
    match hexDigitVal c1, hexDigitVal c2, from_hex rest with
    | some h, some l, some tl => some ((16 * h + l) :: tl)
    | _, _, _ => none

/-- Function `to_color` from src/main.rs lines 152-158: take the last six characters
of the text and hex-decode them into three bytes.  `none` models the two
panics of the source: the `text.len() - 6` underflow / slice panic when the
text is shorter than six characters, and the `from_hex(..).unwrap()` panic
on non-hex input. -/
def to_color (text : List Char) : Option Color :=
  if text.length < 6 then none
  else
    match from_hex ((text.drop (text.length - 6)).take 6) with
    | some (a :: b :: c :: _) => some (a, b, c)
    | _ => none

/-- Modelled from Rust's `str::parse::<u32>` (src/main.rs line 59): an
optional leading `+`, then one or more decimal digits, with the value
required to fit in 32 bits; anything else fails. -/
def parse_u32 (text : List Char) : Option ℕ :=
  let digits := match text with
    | '+' :: rest => rest
    | t => t
  if digits = [] then none
  else if digits.all (fun c => c.isDigit) then
    let v := digits.foldl (fun acc c => 10 * acc + (c.toNat - 48)) 0
    if v < 2 ^ 32 then some v else none
  else none

/-- Default colors and size, src/main.rs lines 21-25. -/
def MATCH_COLOR : List Char := "#ffffff".toList

def OFF_COLOR : List Char := "#222222".toList

def ON_COLOR : List Char := "#ffffff".toList

def SIZE : ℕ := 2048

/-- The command-line option values consumed by `do_work` (src/main.rs
lines 37-61): absent options fall back to the defaults. -/
structure Args where
  match_color : Option (List Char)
  off_color : Option (List Char)
  on_color : Option (List Char)
  size : Option (List Char)
  pattern : List Char

/-- The three fatal configuration failures named by the specification (§7),
one per `unwrap` site of the source. -/
inductive ConfigError where
  | PatternError : ConfigError
  | ColorFormatError : ConfigError
  | InvalidSizeError : ConfigError
deriving DecidableEq

/-- The size value used by `do_work`: the parsed `-s` argument, or the
default `SIZE` when the option is absent (src/main.rs lines 58-61). -/
def parse_size (o : Option (List Char)) : Option ℕ :=
  match o with
  | some s => parse_u32 s
  | none => some SIZE

/-- Function `do_work` from src/main.rs lines 37-73, up to the point where the image
is handed to the encoder.  The source `unwrap`s — on the size parse, inside
`to_color`, and on `Regex::new` in `create_image` — abort the program
before any pixel is computed; they are modelled as `Except.error` of the
corresponding kind.  The `-o` output path only affects the excluded I/O
step. -/
def do_work (compile : List Char → Option RegexModel) (args : Args) : Except ConfigError Image :=
  match parse_size args.size with
  | none => Except.error ConfigError.InvalidSizeError
  | some size =>
    match to_color (args.match_color.getD MATCH_COLOR),
        to_color (args.off_color.getD OFF_COLOR),
        to_color (args.on_color.getD ON_COLOR) with
    | some mc, some oc, some onc =>
      match create_image compile
          { match_color := mc, off_color := oc, on_color := onc,
            regex := args.pattern, size := size } with
      | none => Except.error ConfigError.PatternError
      | some img => Except.ok img
    | _, _, _ => Except.error ConfigError.ColorFormatError

/-- Modelled from the spec: the pattern engine compiled on `^22$` — an
anchored literal that matches exactly the string `"22"` and has no capture
group. -/
def regex22 : RegexModel where
  isMatch := fun s => s == "22".toList
  captureAt1 := fun _ => none

/-- Modelled from the spec: a compilation collaborator that knows the one
pattern `^22$` and rejects everything else. -/
def compile22 (p : List Char) : Option RegexModel :=
  if p == "^22$".toList then some regex22 else none

/-- Modelled from the spec: the pattern engine compiled on `(2*)`, which
matches every string — the capture group always participates and captures
the leading run of `2`s (the empty string on an empty address). -/
def regexCapStar : RegexModel where
  isMatch := fun _ => true
  captureAt1 := fun s => some (s.takeWhile (fun c => c == '2')).length

/-- Membership of an `f64` value in the interval `[0, 1]`: a non-finite
value (NaN or an infinity, modelled by `none`) always compares false. -/
def float_mem_unit : Option ℚ → Bool
  | none => false
  | some q => decide (0 ≤ q ∧ q ≤ 1)

/-- The options of the end-to-end scenario of the specification: pattern
`^22$`, size 8, onColor `#ffffff`, matchColor `#ffffff`, offColor
`#222222`. -/
def opts8 : ImageOptions :=
  { match_color := (255, 255, 255), off_color := (34, 34, 34), on_color := (255, 255, 255),
    regex := "^22$".toList, size := 8 }

/-- The same options on a 2×2 canvas. -/
def opts2 : ImageOptions := { opts8 with size := 2 }

/-- Command-line arguments with an unparseable size. -/
def args_bad_size : Args :=
  { match_color := none, off_color := none, on_color := none,
    size := some ("abc".toList), pattern := "^22$".toList }

/-- Command-line arguments passing a size of 0. -/
def args_size_zero : Args :=
  { match_color := none, off_color := none, on_color := none,
    size := some ("0".toList), pattern := "^22$".toList }

theorem quadLoopGo_of_le_one (fuel cx cy half : ℕ) (h : half ≤ 1) :
    quadLoopGo fuel cx cy half = [] := by
  cases fuel with
  | zero => rfl
  | succ f =>
    simp only [quadLoopGo]
    rw [if_neg (by omega)]

theorem quadLoopGo_congr (f1 : ℕ) : ∀ (f2 cx cy half : ℕ), half ≤ f1 → half ≤ f2 →
    quadLoopGo f1 cx cy half = quadLoopGo f2 cx cy half := by
  induction f1 with
  | zero =>
    intro f2 cx cy half h1 h2
    rw [quadLoopGo_of_le_one _ _ _ _ (by omega), quadLoopGo_of_le_one _ _ _ _ (by omega)]
  | succ f ih =>
    intro f2 cx cy half h1 h2
    by_cases hh : half ≤ 1
    · rw [quadLoopGo_of_le_one _ _ _ _ hh, quadLoopGo_of_le_one _ _ _ _ hh]
    · obtain ⟨g, rfl⟩ : ∃ g, f2 = g + 1 := ⟨f2 - 1, by omega⟩
      have hrec : ∀ a b, quadLoopGo f a b (half / 2) = quadLoopGo g a b (half / 2) :=
        fun a b => ih g a b (half / 2) (by omega) (by omega)
      simp only [quadLoopGo]
      split_ifs <;> simp [hrec]

theorem quadLoop_of_le_one (cx cy half : ℕ) (h : half ≤ 1) : quadLoop cx cy half = [] :=
  quadLoopGo_of_le_one _ _ _ _ h

theorem quadLoop_ne_branch (cx cy half : ℕ) (hh : 1 < half) (h1 : cx ≥ half) (h2 : cy < half) :
    quadLoop cx cy half = '1' :: quadLoop (cx - half) cy (half / 2) := by
  obtain ⟨n, rfl⟩ : ∃ n, half = n + 1 := ⟨half - 1, by omega⟩
  show quadLoopGo (n + 1) cx cy (n + 1) = _
  simp only [quadLoopGo]
  rw [if_pos hh, if_pos ⟨h1, h2⟩]
  exact congrArg _ (quadLoopGo_congr n _ _ _ _ (by omega) (by omega))

theorem quadLoop_nw_branch (cx cy half : ℕ) (hh : 1 < half) (h1 : cx < half) (h2 : cy < half) :
    quadLoop cx cy half = '2' :: quadLoop cx cy (half / 2) := by
  obtain ⟨n, rfl⟩ : ∃ n, half = n + 1 := ⟨half - 1, by omega⟩
  show quadLoopGo (n + 1) cx cy (n + 1) = _
  simp only [quadLoopGo]
  rw [if_pos hh, if_neg (by omega), if_pos ⟨h1, h2⟩]
  exact congrArg _ (quadLoopGo_congr n _ _ _ _ (by omega) (by omega))

theorem quadLoop_sw_branch (cx cy half : ℕ) (hh : 1 < half) (h1 : cx < half) (h2 : cy ≥ half) :
    quadLoop cx cy half = '3' :: quadLoop cx (cy - half) (half / 2) := by
  obtain ⟨n, rfl⟩ : ∃ n, half = n + 1 := ⟨half - 1, by omega⟩
  show quadLoopGo (n + 1) cx cy (n + 1) = _
  simp only [quadLoopGo]
  rw [if_pos hh, if_neg (by omega), if_neg (by omega), if_pos ⟨h1, h2⟩]
  exact congrArg _ (quadLoopGo_congr n _ _ _ _ (by omega) (by omega))

theorem quadLoop_se_branch (cx cy half : ℕ) (hh : 1 < half) (h1 : cx ≥ half) (h2 : cy ≥ half) :
    quadLoop cx cy half = '4' :: quadLoop (cx - half) (cy - half) (half / 2) := by
  obtain ⟨n, rfl⟩ : ∃ n, half = n + 1 := ⟨half - 1, by omega⟩
  show quadLoopGo (n + 1) cx cy (n + 1) = _
  simp only [quadLoopGo]
  rw [if_pos hh, if_neg (by omega), if_neg (by omega), if_neg (by omega)]
  exact congrArg _ (quadLoopGo_congr n _ _ _ _ (by omega) (by omega))

theorem log2_of_le_one (n : ℕ) (h : n ≤ 1) : Nat.log2 n = 0 := by
  rw [Nat.log2]
  simp
  omega

theorem log2_step (n : ℕ) (h : 2 ≤ n) : Nat.log2 n = Nat.log2 (n / 2) + 1 := by
  conv_lhs => rw [Nat.log2]
  simp [h]

theorem log2_two_pow (m : ℕ) : Nat.log2 (2 ^ m) = m := by
  induction m with
  | zero => exact log2_of_le_one _ (by norm_num)
  | succ m ih =>
    have h2 : (2 : ℕ) ^ 1 ≤ 2 ^ (m + 1) := Nat.pow_le_pow_right (by norm_num) (by omega)
    rw [log2_step _ (by simpa using h2)]
    have : (2 : ℕ) ^ (m + 1) / 2 = 2 ^ m := by
      rw [pow_succ, Nat.mul_div_cancel _ (by norm_num)]
    rw [this, ih]

theorem quadLoop_length (half : ℕ) : ∀ cx cy : ℕ, (quadLoop cx cy half).length = Nat.log2 half := by
  induction half using Nat.strong_induction_on with
  | _ half ih =>
    intro cx cy
    by_cases hh : half ≤ 1
    · rw [quadLoop_of_le_one _ _ _ hh, log2_of_le_one _ hh]
      rfl
    · have hstep : Nat.log2 half = Nat.log2 (half / 2) + 1 := log2_step half (by omega)
      have ihh : ∀ a b, (quadLoop a b (half / 2)).length = Nat.log2 (half / 2) :=
        fun a b => ih (half / 2) (by omega) a b
      by_cases h1 : cx ≥ half <;> by_cases h2 : cy ≥ half
      · rw [quadLoop_se_branch _ _ _ (by omega) h1 h2]
        simp [ihh, hstep]
      · rw [quadLoop_ne_branch _ _ _ (by omega) h1 (by omega)]
        simp [ihh, hstep]
      · rw [quadLoop_sw_branch _ _ _ (by omega) (by omega) h2]
        simp [ihh, hstep]
      · rw [quadLoop_nw_branch _ _ _ (by omega) (by omega) (by omega)]
        simp [ihh, hstep]

/-- C3: for every power-of-two size `2 ^ k` with `k ≥ 1` and every coordinate
`(x, y)` with `x, y < 2 ^ k`, the address produced by `pixel_string` has
length exactly `log2 size - 1 = k - 1`. -/
theorem pixel_string_length_pow2 (k x y : ℕ) (hk : 1 ≤ k) (hx : x < 2 ^ k) (hy : y < 2 ^ k) :
    (pixel_string x y (2 ^ k)).length = k - 1 := by
  have hdiv : (2 : ℕ) ^ k / 2 = 2 ^ (k - 1) := by
    obtain ⟨j, rfl⟩ : ∃ j, k = j + 1 := ⟨k - 1, by omega⟩
    rw [pow_succ, Nat.mul_div_cancel _ (by norm_num)]
    simp
  unfold pixel_string
  rw [hdiv, quadLoop_length, log2_two_pow]

theorem pixel_string_length_pow2_witness : (pixel_string 0 0 (2 ^ 3)).length = 3 - 1 :=
  pixel_string_length_pow2 3 0 0 (by norm_num) (by norm_num) (by norm_num)

/-- C9: the halving loop of `pixel_string` always terminates with a finite
address — its length is exactly `log2 (size / 2)` for every `x`, `y` and
`size` — and for `size = 0` or `size = 1` the address is empty. -/
theorem pixel_string_finite (x y size : ℕ) :
    (pixel_string x y size).length = Nat.log2 (size / 2) ∧
      pixel_string x y 0 = [] ∧ pixel_string x y 1 = [] := by
  refine ⟨?_, ?_, ?_⟩
  · unfold pixel_string
    rw [quadLoop_length]
  · exact quadLoop_of_le_one _ _ _ (by omega)
  · exact quadLoop_of_le_one _ _ _ (by omega)

/-- C6 counterexample: the claim asserts `address(0,4,8) = "23"`, but the
code pushes the quadrant symbols in outer-to-inner order: the first
iteration classifies `(0,4)` into the south-west quadrant (symbol `3`) and
the second into the north-west quadrant (symbol `2`), giving `"32"`. -/
theorem pixel_string_0_4_8_ne : pixel_string 0 4 8 = "32".toList ∧ "32".toList ≠ "23".toList := by
  constructor
  · decide
  · decide

/-- C6 (amended): the address generator yields `address(0,0,8) = "22"`,
`address(7,7,8) = "44"`, `address(4,0,8) = "12"`, and `address(0,4,8) =
"32"` (not `"23"`: the outer quadrant symbol comes first). -/
theorem pixel_string_examples :
    pixel_string 0 0 8 = "22".toList ∧ pixel_string 7 7 8 = "44".toList ∧
      pixel_string 4 0 8 = "12".toList ∧ pixel_string 0 4 8 = "32".toList := by
  refine ⟨by decide, by decide, by decide, by decide⟩

theorem quadLoop_step (cx cy half : ℕ) (hh : 1 < half) :
    quadLoop cx cy half = quadChar cx cy half :: quadLoop (quadX cx half) (quadY cy half) (half / 2) := by
  by_cases h1 : cx ≥ half <;> by_cases h2 : cy ≥ half
  · rw [quadLoop_se_branch _ _ _ hh h1 h2]
    simp [quadChar, quadX, quadY, h1, h2]
  · rw [quadLoop_ne_branch _ _ _ hh h1 (by omega)]
    simp [quadChar, quadX, quadY, h1, h2]
  · rw [quadLoop_sw_branch _ _ _ hh (by omega) h2]
    simp [quadChar, quadX, quadY, h1, h2]
  · rw [quadLoop_nw_branch _ _ _ hh (by omega) (by omega)]
    simp [quadChar, quadX, quadY, h1, h2]

theorem quadChar_inj {cx1 cy1 cx2 cy2 half : ℕ}
    (h : quadChar cx1 cy1 half = quadChar cx2 cy2 half) :
    ((cx1 ≥ half) ↔ (cx2 ≥ half)) ∧ ((cy1 ≥ half) ↔ (cy2 ≥ half)) := by
  unfold quadChar at h
  split_ifs at h <;> first | exact absurd h (by decide) | omega

theorem quadX_lt {cx half : ℕ} (h : cx < 2 * half) : quadX cx half < half := by
  unfold quadX
  split_ifs <;> omega

theorem quadY_lt {cy half : ℕ} (h : cy < 2 * half) : quadY cy half < half := by
  unfold quadY
  split_ifs <;> omega

theorem quadLoop_eq_of_div2_eq (k : ℕ) : ∀ cx1 cy1 cx2 cy2 : ℕ,
    cx1 / 2 = cx2 / 2 → cy1 / 2 = cy2 / 2 →
    quadLoop cx1 cy1 (2 ^ k) = quadLoop cx2 cy2 (2 ^ k) := by
  induction k with
  | zero =>
    intro cx1 cy1 cx2 cy2 _ _
    rw [quadLoop_of_le_one _ _ _ (by norm_num), quadLoop_of_le_one _ _ _ (by norm_num)]
  | succ k ih =>
    intro cx1 cy1 cx2 cy2 hx hy
    have hm : 0 < (2 : ℕ) ^ k := Nat.pos_pow_of_pos _ (by norm_num)
    have e1 : (2 : ℕ) ^ (k + 1) = 2 * 2 ^ k := by rw [pow_succ]; ring
    have hh : 1 < (2 : ℕ) ^ (k + 1) := by omega
    have hdiv : (2 : ℕ) ^ (k + 1) / 2 = 2 ^ k := by omega
    rw [quadLoop_step _ _ _ hh, quadLoop_step _ _ _ hh, hdiv]
    have hcx : quadChar cx1 cy1 (2 ^ (k + 1)) = quadChar cx2 cy2 (2 ^ (k + 1)) := by
      unfold quadChar
      have a1 : cx1 ≥ 2 ^ (k + 1) ↔ cx2 ≥ 2 ^ (k + 1) := by omega
      have a2 : cy1 ≥ 2 ^ (k + 1) ↔ cy2 ≥ 2 ^ (k + 1) := by omega
      split_ifs <;> first | rfl | (exfalso; omega)
    rw [hcx]
    refine congrArg _ (ih _ _ _ _ ?_ ?_)
    · unfold quadX
      split_ifs <;> omega
    · unfold quadY
      split_ifs <;> omega

theorem div2_eq_of_quadLoop_eq (k : ℕ) : ∀ cx1 cy1 cx2 cy2 : ℕ,
    cx1 < 2 ^ (k + 1) → cy1 < 2 ^ (k + 1) → cx2 < 2 ^ (k + 1) → cy2 < 2 ^ (k + 1) →
    quadLoop cx1 cy1 (2 ^ k) = quadLoop cx2 cy2 (2 ^ k) →
    cx1 / 2 = cx2 / 2 ∧ cy1 / 2 = cy2 / 2 := by
  induction k with
  | zero =>
    intro cx1 cy1 cx2 cy2 b1 b2 b3 b4 _
    have h2 : (2 : ℕ) ^ 1 = 2 := by norm_num
    rw [h2] at b1 b2 b3 b4
    omega
  | succ k ih =>
    intro cx1 cy1 cx2 cy2 b1 b2 b3 b4 heq
    have hm : 0 < (2 : ℕ) ^ k := Nat.pos_pow_of_pos _ (by norm_num)
    have e1 : (2 : ℕ) ^ (k + 1) = 2 * 2 ^ k := by rw [pow_succ]; ring
    have e2 : (2 : ℕ) ^ (k + 2) = 2 * 2 ^ (k + 1) := by rw [pow_succ]; ring
    have hh : 1 < (2 : ℕ) ^ (k + 1) := by omega
    have hdiv : (2 : ℕ) ^ (k + 1) / 2 = 2 ^ k := by omega
    rw [quadLoop_step _ _ _ hh, quadLoop_step _ _ _ hh, hdiv] at heq
    simp only [List.cons.injEq] at heq
    obtain ⟨hchar, htail⟩ := heq
    obtain ⟨hxa, hya⟩ := quadChar_inj hchar
    have hX1 : quadX cx1 (2 ^ (k + 1)) < 2 ^ (k + 1) := quadX_lt (by omega)
    have hY1 : quadY cy1 (2 ^ (k + 1)) < 2 ^ (k + 1) := quadY_lt (by omega)
    have hX2 : quadX cx2 (2 ^ (k + 1)) < 2 ^ (k + 1) := quadX_lt (by omega)
    have hY2 : quadY cy2 (2 ^ (k + 1)) < 2 ^ (k + 1) := quadY_lt (by omega)
    obtain ⟨hdx, hdy⟩ := ih _ _ _ _ hX1 hY1 hX2 hY2 htail
    constructor
    · unfold quadX at hdx
      split_ifs at hdx <;> omega
    · unfold quadY at hdy
      split_ifs at hdy <;> omega

/-- C1 counterexample: the address map is not injective on a power-of-two
canvas: the distinct pixels `(0,0)` and `(1,1)` of an 8×8 canvas receive
the same address `"22"` (the loop stops once `half ≤ 1` and never separates
the pixels of a 2×2 block). -/
theorem pixel_string_not_injective :
    pixel_string 0 0 8 = pixel_string 1 1 8 ∧
      ((0, 0) : ℕ × ℕ) ≠ (1, 1) ∧ (0 : ℕ) < 8 ∧ (1 : ℕ) < 8 ∧ (8 : ℕ) = 2 ^ 3 := by
  refine ⟨by decide, by decide, by norm_num, by norm_num, by norm_num⟩

/-- C1 (amended): on a power-of-two canvas `size = 2 ^ k` the address map is
injective only up to 2×2 blocks: two in-range coordinates receive the same
address exactly when they lie in the same 2×2 block, i.e.
`address(x1,y1,size) = address(x2,y2,size) ↔ x1/2 = x2/2 ∧ y1/2 = y2/2`.
In particular coordinates in distinct 2×2 blocks receive distinct
addresses, while the four pixels of a block always share one. -/
theorem pixel_string_eq_iff (k x1 y1 x2 y2 : ℕ)
    (hx1 : x1 < 2 ^ k) (hy1 : y1 < 2 ^ k) (hx2 : x2 < 2 ^ k) (hy2 : y2 < 2 ^ k) :
    pixel_string x1 y1 (2 ^ k) = pixel_string x2 y2 (2 ^ k) ↔
      x1 / 2 = x2 / 2 ∧ y1 / 2 = y2 / 2 := by
  cases k with
  | zero =>
    have h1 : x1 = 0 := by simpa using hx1
    have h2 : y1 = 0 := by simpa using hy1
    have h3 : x2 = 0 := by simpa using hx2
    have h4 : y2 = 0 := by simpa using hy2
    subst h1 h2 h3 h4
    simp
  | succ k =>
    have hm : 0 < (2 : ℕ) ^ k := Nat.pos_pow_of_pos _ (by norm_num)
    have e1 : (2 : ℕ) ^ (k + 1) = 2 * 2 ^ k := by rw [pow_succ]; ring
    have hdiv : (2 : ℕ) ^ (k + 1) / 2 = 2 ^ k := by omega
    unfold pixel_string
    rw [hdiv]
    constructor
    · exact fun h => div2_eq_of_quadLoop_eq k x1 y1 x2 y2 hx1 hy1 hx2 hy2 h
    · exact fun h => quadLoop_eq_of_div2_eq k x1 y1 x2 y2 h.1 h.2

theorem pixel_string_eq_iff_witness :
    (pixel_string 0 0 (2 ^ 3) = pixel_string 2 0 (2 ^ 3) ↔ 0 / 2 = 2 / 2 ∧ 0 / 2 = 0 / 2) :=
  pixel_string_eq_iff 3 0 0 2 0 (by norm_num) (by norm_num) (by norm_num) (by norm_num)

theorem ratTruncToNat_natCast (n : ℕ) : ratTruncToNat ((n : ℕ) : ℚ) = n := by
  unfold ratTruncToNat
  rw [Rat.num_natCast, Rat.den_natCast]
  simp

theorem u8_lerp_zero (x y : ℕ) (h : x ≤ 255) : u8_lerp (some 0) x y = x := by
  show min (ratTruncToNat ((x : ℚ) + 0 * ((y : ℚ) - (x : ℚ)))) 255 = x
  have e : (x : ℚ) + 0 * ((y : ℚ) - (x : ℚ)) = ((x : ℕ) : ℚ) := by ring
  rw [e, ratTruncToNat_natCast]
  omega

theorem color_lerp_zero (C M : Color) (h1 : C.1 ≤ 255) (h2 : C.2.1 ≤ 255) (h3 : C.2.2 ≤ 255) :
    color_lerp (some 0) C M = C := by
  unfold color_lerp
  rw [u8_lerp_zero _ _ h1, u8_lerp_zero _ _ h2, u8_lerp_zero _ _ h3]
  rfl

/-- C8: for every pair of colors `C` (on) and `M` (match), resolving a
matched result with `t = 0` under the per-channel rule
`result = onChannel + t * (matchChannel - onChannel)` truncated toward zero
to an 8-bit value returns exactly `C`. -/
theorem color_lerp_at_zero (C M : Color) (h1 : C.1 ≤ 255) (h2 : C.2.1 ≤ 255) (h3 : C.2.2 ≤ 255) :
    color_lerp (some 0) C M = C :=
  color_lerp_zero C M h1 h2 h3

theorem color_lerp_at_zero_witness :
    color_lerp (some 0) (10, 200, 255) (0, 77, 3) = (10, 200, 255) :=
  color_lerp_at_zero (10, 200, 255) (0, 77, 3) (by norm_num) (by norm_num) (by norm_num)

/-- C7: whenever the pattern does not match the pixel's address, the pixel
receives the configured off color byte-for-byte unchanged, whatever the
on and match colors are. -/
theorem off_color_on_no_match (rm : RegexModel) (opts : ImageOptions) (x y : ℕ)
    (h : rm.isMatch (pixel_string x y opts.size) = false) :
    create_image_pixel rm opts x y = opts.off_color := by
  unfold create_image_pixel
  rw [h]
  simp

theorem off_color_on_no_match_witness :
    create_image_pixel regex22 opts8 4 4 = opts8.off_color :=
  off_color_on_no_match regex22 opts8 4 4 (by decide)

/-- C5 counterexample: the pattern `(2*)` matches the empty address (the
address of every pixel when `size ≤ 3`) with a participating, empty first
capture group, and `t` is then the `f64` division `0.0 / 0.0`, i.e. NaN —
which does not lie in `[0, 1]`. -/
theorem t_value_nan_on_empty_address :
    regexCapStar.isMatch [] = true ∧ regexCapStar.captureAt1 [] = some 0 ∧
      t_value regexCapStar [] = none ∧ float_mem_unit (t_value regexCapStar []) = false :=
  ⟨rfl, rfl, rfl, rfl⟩

/-- C5 (amended): on a matched address, if the pattern has no participating
first capture group then `t = 0`; if the group participates with capture
length `c ≤ len(address)` and the address is nonempty then `t` is the exact
division `c / len(address)` and lies in `[0, 1]`; but on an empty matched
address with a participating group the division is `0/0` and `t` is NaN
(outside `[0, 1]`). -/
theorem t_value_characterization (rm : RegexModel) (pid : List Char) :
    (rm.captureAt1 pid = none → t_value rm pid = some 0) ∧
      (∀ c, rm.captureAt1 pid = some c → c ≤ pid.length → pid ≠ [] →
        t_value rm pid = some (((c : ℕ) : ℚ) / ((pid.length : ℕ) : ℚ)) ∧
          0 ≤ ((c : ℕ) : ℚ) / ((pid.length : ℕ) : ℚ) ∧
          ((c : ℕ) : ℚ) / ((pid.length : ℕ) : ℚ) ≤ 1) ∧
      (∀ c, rm.captureAt1 pid = some c → pid = [] → t_value rm pid = none) := by
  refine ⟨fun h => ?_, fun c hc hle hne => ?_, fun c hc hnil => ?_⟩
  · simp [t_value, h]
  · have hlen : 0 < pid.length := List.length_pos.mpr hne
    have h0 : pid.length ≠ 0 := by omega
    refine ⟨?_, ?_, ?_⟩
    · simp [t_value, hc, fdiv, h0]
    · positivity
    · rw [div_le_one (by exact_mod_cast hlen)]
      exact_mod_cast hle
  · subst hnil
    simp [t_value, hc, fdiv]

theorem t_value_characterization_witness :
    t_value regexCapStar ("22".toList) =
        some (((2 : ℕ) : ℚ) / ((("22".toList).length : ℕ) : ℚ)) ∧
      0 ≤ ((2 : ℕ) : ℚ) / ((("22".toList).length : ℕ) : ℚ) ∧
      ((2 : ℕ) : ℚ) / ((("22".toList).length : ℕ) : ℚ) ≤ 1 :=
  (t_value_characterization regexCapStar ("22".toList)).2.1 2 (by decide) (by decide) (by decide)

theorem pixel_string_8_eq_22_iff : ∀ x, x < 8 → ∀ y, y < 8 →
    (x < 2 ∧ y < 2 → pixel_string x y 8 = "22".toList) ∧
      (¬(x < 2 ∧ y < 2) → pixel_string x y 8 ≠ "22".toList) := by
  decide

theorem create_image_pixel_opts8 (x y : ℕ) (hx : x < 8) (hy : y < 8) :
    create_image_pixel regex22 opts8 x y =
      if x < 2 ∧ y < 2 then (255, 255, 255) else (34, 34, 34) := by
  obtain ⟨k1, k2⟩ := pixel_string_8_eq_22_iff x hx y hy
  by_cases hxy : x < 2 ∧ y < 2
  · rw [if_pos hxy]
    unfold create_image_pixel
    have hm : regex22.isMatch (pixel_string x y opts8.size) = true := by
      show (pixel_string x y 8 == "22".toList) = true
      rw [k1 hxy]
      simp
    rw [if_pos hm]
    have ht : t_value regex22 (pixel_string x y opts8.size) = some 0 := rfl
    rw [ht]
    show color_lerp (some 0) (255, 255, 255) (255, 255, 255) = (255, 255, 255)
    exact color_lerp_zero _ _ (by norm_num) (by norm_num) (by norm_num)
  · rw [if_neg hxy]
    unfold create_image_pixel
    have hm : regex22.isMatch (pixel_string x y opts8.size) = false := by
      show (pixel_string x y 8 == "22".toList) = false
      exact beq_eq_false_iff_ne.mpr (k2 hxy)
    have hm' : ¬(regex22.isMatch (pixel_string x y opts8.size) = true) := by
      simp [hm]
    rw [if_neg hm']
    rfl

/-- C2 counterexample: in the `^22$` / size-8 scenario, pixel `(1, 1)` —
distinct from `(0, 0)` — is also white, because its address is also `"22"`;
so it is false that every pixel other than `(0, 0)` is `#222222`. -/
theorem e2e_pattern_22_cex :
    create_image_pixel regex22 opts8 1 1 = (255, 255, 255) ∧
      ((255, 255, 255) : Color) ≠ (34, 34, 34) ∧ ((1, 1) : ℕ × ℕ) ≠ (0, 0) := by
  refine ⟨?_, by decide, by decide⟩
  have h := create_image_pixel_opts8 1 1 (by norm_num) (by norm_num)
  simpa using h

/-- C2 (amended): pattern `^22$`, size 8, onColor `#ffffff`, matchColor
`#ffffff`, offColor `#222222` (which decode to `(255,255,255)` and
`(34,34,34)`): the four pixels of the top-left 2×2 block — `(0,0)`,
`(0,1)`, `(1,0)`, `(1,1)` — are white and every other pixel is
`(34,34,34)`, because all four pixels of that block share the address
`"22"`. -/
theorem e2e_pattern_22 :
    to_color ("#ffffff".toList) = some (255, 255, 255) ∧
      to_color ("#222222".toList) = some (34, 34, 34) ∧
      ∀ x y : Fin 8, create_image_pixel regex22 opts8 x.1 y.1 =
        if x.1 < 2 ∧ y.1 < 2 then (255, 255, 255) else (34, 34, 34) :=
  ⟨by decide, by decide, fun x y => create_image_pixel_opts8 x.1 y.1 x.2 y.2⟩

/-- C10: for every size in `{0, 1, 2, 3}` the halving loop never runs
(`size / 2 ≤ 1`), so every coordinate receives the empty address and every
pixel of the rendered image receives the same color. -/
theorem small_size_all_pixels_equal (size : ℕ) (hs : size ≤ 3) (rm : RegexModel)
    (opts : ImageOptions) (hsz : opts.size = size) (x y x' y' : ℕ) :
    pixel_string x y size = [] ∧
      create_image_pixel rm opts x y = create_image_pixel rm opts x' y' := by
  have hempty : ∀ a b, pixel_string a b size = [] := fun a b =>
    quadLoop_of_le_one _ _ _ (by omega)
  refine ⟨hempty x y, ?_⟩
  unfold create_image_pixel
  rw [hsz, hempty, hempty]

theorem small_size_all_pixels_equal_witness :
    pixel_string 0 0 2 = [] ∧
      create_image_pixel regex22 opts2 0 0 = create_image_pixel regex22 opts2 1 1 :=
  small_size_all_pixels_equal 2 (by norm_num) regex22 opts2 rfl 0 0 1 1

/-- C4 (amended): an unparseable size argument, an undecodable color
string, and an uncompilable pattern are each detected while the
configuration is being built — before any pixel is computed — and abort
the run with the corresponding error, producing no image.  (A size
argument of `0`, however, parses successfully as a `u32` and is not
rejected; see the counterexample.) -/
theorem config_errors_fatal (compile : List Char → Option RegexModel) (args : Args) :
    (parse_size args.size = none →
        do_work compile args = Except.error ConfigError.InvalidSizeError) ∧
      (∀ size, parse_size args.size = some size →
        (to_color (args.match_color.getD MATCH_COLOR) = none ∨
            to_color (args.off_color.getD OFF_COLOR) = none ∨
            to_color (args.on_color.getD ON_COLOR) = none) →
        do_work compile args = Except.error ConfigError.ColorFormatError) ∧
      (∀ size mc oc onc, parse_size args.size = some size →
        to_color (args.match_color.getD MATCH_COLOR) = some mc →
        to_color (args.off_color.getD OFF_COLOR) = some oc →
        to_color (args.on_color.getD ON_COLOR) = some onc →
        compile args.pattern = none →
        do_work compile args = Except.error ConfigError.PatternError) := by
  refine ⟨fun hp => ?_, fun size hs hbad => ?_, fun size mc oc onc hs hm ho hn hc => ?_⟩
  · simp [do_work, hp]
  · unfold do_work
    rw [hs]
    cases hmc : to_color (args.match_color.getD MATCH_COLOR) <;>
      cases hoc : to_color (args.off_color.getD OFF_COLOR) <;>
        cases honc : to_color (args.on_color.getD ON_COLOR) <;>
          simp_all
  · simp [do_work, create_image, hs, hm, ho, hn, hc]

theorem config_errors_fatal_witness :
    do_work compile22 args_bad_size = Except.error ConfigError.InvalidSizeError :=
  (config_errors_fatal compile22 args_bad_size).1 (by decide)

/-- C4 counterexample: a size argument of `"0"` is not rejected as an
InvalidSizeError: `str::parse::<u32>` accepts it, configuration
construction succeeds, and the program renders an empty 0×0 image. -/
theorem size_zero_not_rejected :
    parse_size args_size_zero.size = some 0 ∧
      do_work compile22 args_size_zero = Except.ok [] :=
  ⟨rfl, rfl⟩
